import Mathlib

/-!
Verification of the Akoma Ntoso extraction module (ulit/parsers/akomantoso.py).

The XML tree is modelled by `Elem`: tag, attribute list, leading text
(lxml `.text`), children, and tail text (lxml `.tail`).  lxml stores absent
text/tail as Python `None`; we model both as `Option String`.  Namespaced
tags such as `akn:p` are modelled as plain tag strings, mirroring the
prefix-qualified paths the parser passes to lxml.
-/

inductive Elem : Type where
  | mk : String → List (String × String) → Option String → List Elem → Option String → Elem

def Elem.tag : Elem → String
  | .mk t _ _ _ _ => t

def Elem.attrs : Elem → List (String × String)
  | .mk _ a _ _ _ => a

def Elem.text : Elem → Option String
  | .mk _ _ tx _ _ => tx

def Elem.children : Elem → List Elem
  | .mk _ _ _ cs _ => cs

def Elem.tail : Elem → Option String
  | .mk _ _ _ _ tl => tl

/-- `element.get(key)` of lxml: the attribute value, or `None` when absent. -/
def Elem.getAttr (e : Elem) (k : String) : Option String :=
  (e.attrs.find? fun p => p.1 == k).map (fun p => p.2)

/-- Replace only the tail of an element (used by tail-preservation in
`remove_node`, which mutates `previous_sibling.tail` in place). -/
def Elem.withTail (e : Elem) (t : Option String) : Elem :=
  .mk e.tag e.attrs e.text e.children t

/-- Python truthiness of an optional string: `None` and `""` are falsy. -/
def truthy (s : Option String) : Bool := s.getD "" != ""

/-- Python `\s` on the ASCII range (also the `str.strip()` default set). -/
def isPyWs (c : Char) : Bool :=
  c = ' ' || c = '\t' || c = '\n' || c = '\r' || c = '\x0b' || c = '\x0c'

/-- Python `str.strip()`: drop leading and trailing whitespace. -/
def strip (s : String) : String :=
  ⟨((s.data.dropWhile isPyWs).reverse.dropWhile isPyWs).reverse⟩

/-- Python `(x or '') + t` on an optional string `x`. -/
def pyAppend (x : Option String) (t : String) : Option String :=
  some (x.getD "" ++ t)

mutual

/-- lxml `itertext()`: the element's own text, then for each child in order
its pieces followed by the child's tail.  The element's own tail is not
included. -/
def Elem.itertext : Elem → List String
  | .mk _ _ tx cs _ => tx.toList ++ itertextList cs

def itertextList : List Elem → List String
  | [] => []
  | c :: rest => c.itertext ++ c.tail.toList ++ itertextList rest

end

/-- `''.join(e.itertext())`. -/
def Elem.allText (e : Elem) : String := String.join e.itertext

mutual

/-- All proper descendants of an element, in document (pre-)order. -/
def Elem.descendants : Elem → List Elem
  | .mk _ _ _ cs _ => descList cs

def descList : List Elem → List Elem
  | [] => []
  | c :: rest => (c :: c.descendants) ++ descList rest

end

/-- `e.findall('.//tag')`: descendants carrying the tag, document order. -/
def Elem.findallDesc (e : Elem) (tag : String) : List Elem :=
  e.descendants.filter fun c => c.tag == tag

/-- `e.find('.//tag')`. -/
def Elem.findDesc (e : Elem) (tag : String) : Option Elem :=
  (e.findallDesc tag).head?

/-- `e.findall('tag')`: direct children carrying the tag. -/
def Elem.childrenTagged (e : Elem) (tag : String) : List Elem :=
  e.children.filter fun c => c.tag == tag

/-- `e.find('tag')`: first direct child carrying the tag. -/
def Elem.findChild (e : Elem) (tag : String) : Option Elem :=
  (e.childrenTagged tag).head?

/-- `root.find('.//t1/t2')` (ElementPath): for each `t1` descendant in
document order, its `t2` children in order; first of that sequence. -/
def findPath2 (root : Elem) (t1 t2 : String) : Option Elem :=
  ((root.findallDesc t1).flatMap fun s => s.childrenTagged t2).head?

/-! ### remove_node (akomantoso.py lines 32-67)

The Python loop iterates over the pre-computed `findall('.//tag')` list and
mutates the tree in place.  For each matched element it detaches it from
its current parent and, when the detached tail is truthy, appends the tail
to `parent.getchildren()[-1].tail` (the last remaining child) when any
children remain, and to `parent.text` otherwise.  Matches nested inside an
already-detached match only mutate the detached subtree, which never
re-enters the result.  Since pre-order processes ancestors before their
descendants and the mutations of distinct parents touch disjoint fields,
the loop is equivalent to the recursive transform below: recurse into the
children, then run the per-parent removal loop (`stripLoop`) which removes
matching children left to right, re-applying the tail rule each time. -/

/-- Append `t` to the tail of the last element of the list
(`parent.getchildren()[-1].tail = (... or '') + tail_text`). -/
def setTailLast (t : String) : List Elem → List Elem
  | [] => []
  | [c] => [c.withTail (pyAppend c.tail t)]
  | c :: c' :: rest => c :: setTailLast t (c' :: rest)

/-- The tail-preservation step of `remove_node` for one detached element:
given the detached element's tail, the parent's current text and remaining
children, produce the updated text and children. -/
def applyTailRule (tl : Option String) (tx : Option String) (cs : List Elem) :
    Option String × List Elem :=
  if truthy tl then
    match cs with
    | [] => (pyAppend tx (tl.getD ""), [])
    | c :: rest => (tx, setTailLast (tl.getD "") (c :: rest))
  else (tx, cs)

/-- Detach the first child carrying the tag (`parent.remove(item)` for the
next unprocessed match): returns its tail and the remaining children. -/
def removeFirstTagged (tag : String) : List Elem → Option (Option String × List Elem)
  | [] => none
  | c :: rest =>
    if c.tag = tag then some (c.tail, rest)
    else (removeFirstTagged tag rest).map fun p => (p.1, c :: p.2)

/-- The per-parent removal loop: repeatedly detach the first matching child
and apply the tail rule.  One unit of fuel per removal; fuel equal to the
number of children always suffices. -/
def stripLoop (tag : String) : Nat → Option String → List Elem → Option String × List Elem
  | 0, tx, cs => (tx, cs)
  | fuel + 1, tx, cs =>
    match removeFirstTagged tag cs with
    | none => (tx, cs)
    | some (t, cs') =>
      let p := applyTailRule t tx cs'
      stripLoop tag fuel p.1 p.2

mutual

/-- `remove_node(tree, './/tag')`: the observable result of the in-place
removal loop (see the section comment above). -/
def Elem.removeNode (tag : String) : Elem → Elem
  | .mk t a tx cs tl =>
    let cs0 := removeNodeList tag cs
    let p := stripLoop tag cs0.length tx cs0
    .mk t a p.1 p.2 tl

def removeNodeList (tag : String) : List Elem → List Elem
  | [] => []
  | c :: rest => c.removeNode tag :: removeNodeList tag rest

end

/-! ### Whitespace collapsing (re.sub(r'\s+', ' ', text)) -/

/-- One space is emitted at the first character of a whitespace run; the
flag records whether the previous character was whitespace. -/
def collapseCharsAux : Bool → List Char → List Char
  | _, [] => []
  | prevWs, c :: rest =>
    if isPyWs c then
      if prevWs then collapseCharsAux true rest
      else ' ' :: collapseCharsAux true rest
    else c :: collapseCharsAux false rest

/-- `re.sub(r'\s+', ' ', s)`: every maximal run of whitespace becomes one space. -/
def collapseWs (s : String) : String := ⟨collapseCharsAux false s.data⟩

/-! ### get_text_by_eId (akomantoso.py lines 496-533)

lxml elements carry parent pointers and `getparent()` walks above the
subtree the query started from.  The embedding therefore threads the chain
of ancestors (nearest first) explicitly: `descWithChain e anc` lists every
proper descendant of `e` in document order paired with its ancestor chain,
`anc` being the chain of `e` itself. -/

mutual

def Elem.descWithChain : Elem → List Elem → List (Elem × List Elem)
  | .mk t a tx cs tl, anc => descWithChainList cs (Elem.mk t a tx cs tl :: anc)

def descWithChainList : List Elem → List Elem → List (Elem × List Elem)
  | [], _ => []
  | c :: rest, anc => ((c, anc) :: c.descWithChain anc) ++ descWithChainList rest anc

end

/-- The `while current_element is not None` walk of `get_text_by_eId`:
return the first truthy `eId` attribute on the chain (the element itself
first, then its ancestors). -/
def findEIdUp : List Elem → Option String
  | [] => none
  | c :: rest => if truthy (c.getAttr "eId") then c.getAttr "eId" else findEIdUp rest

/-- `get_text_by_eId(node)`: for each `.//akn:p` descendant in document
order, walk upward from the paragraph itself to the nearest element with a
truthy `eId`; emit `(eId, ''.join(p.itertext()).strip())`, skipping
paragraphs whose walk finds nothing.  `anc` is the ancestor chain of
`node` in the enclosing document. -/
def getTextByEId (anc : List Elem) (node : Elem) : List (String × String) :=
  ((node.descWithChain anc).filter fun pc => pc.1.tag == "akn:p").filterMap
    fun pc =>
      match findEIdUp (pc.1 :: pc.2) with
      | some i => some (i, strip pc.1.allText)
      | none => none

/-! ### Extractors over the document root -/

/-- `get_preface` (lines 252-272): `None` when no `.//akn:preface`,
otherwise the stripped full text of each direct `akn:p` child. -/
def getPreface (root : Elem) : Option (List String) :=
  (root.findDesc "akn:preface").map fun pf =>
    (pf.childrenTagged "akn:p").map fun p => strip p.allText

/-- `get_preamble_citations` (lines 311-336): locate
`.//akn:preamble/akn:citations`; `None` when absent; otherwise strip
`.//akn:authorialNote` and emit `"".join(itertext()).strip()` per direct
`akn:citation` child. -/
def getPreambleCitations (root : Elem) : Option (List String) :=
  (findPath2 root "akn:preamble" "akn:citations").map fun sec =>
    ((sec.removeNode "akn:authorialNote").childrenTagged "akn:citation").map
      fun c => strip c.allText

/-- An entry of the recitals list: `{'recital_text': ..., 'eId': ...}`.
The intro entry's `eId` comes from `intro.get('eId')` (may be `None`);
recital entries use `str(recital.get('eId'))`, always a string. -/
structure RecEntry where
  recital_text : String
  eId : Option String
deriving DecidableEq

/-- Intro text: `' '.join(p.text.strip() for p in intro.findall('akn:p') if p.text)`. -/
def introText (intro : Elem) : String :=
  String.intercalate " "
    ((intro.childrenTagged "akn:p").filterMap fun p =>
      match p.text with
      | none => none
      | some s => if s = "" then none else some (strip s))

/-- Per-paragraph recital text: `' '.join(p.itertext()).strip()` — the
descendant text chunks joined by single spaces, then trimmed. -/
def spaceJoinItertext (p : Elem) : String :=
  strip (String.intercalate " " p.itertext)

/-- Per-recital text: paragraph texts joined by a single space, then
`re.sub(r'\s+', ' ', ...)`. -/
def recitalText (r : Elem) : String :=
  collapseWs (String.intercalate " " ((r.childrenTagged "akn:p").map spaceJoinItertext))

/-- `str(x)` for an optional attribute value: Python renders `None` as `"None"`. -/
def pyStr (x : Option String) : String := x.getD "None"

/-- `get_preamble_recitals` (lines 338-382): `None` when no recitals
section; otherwise the intro entry (direct paragraph text, read before any
stripping — `AttributeError` when the section has no `akn:intro` child),
then one entry per `akn:recital` child of the note-stripped section. -/
def getPreambleRecitals (root : Elem) : Except String (Option (List RecEntry)) :=
  match findPath2 root "akn:preamble" "akn:recitals" with
  | none => .ok none
  | some sec =>
    match sec.findChild "akn:intro" with
    | none => .error "AttributeError"
    | some intro =>
      let introEntry : RecEntry := ⟨introText intro, intro.getAttr "eId"⟩
      let sec' := sec.removeNode "akn:authorialNote"
      .ok (some (introEntry ::
        (sec'.childrenTagged "akn:recital").map fun r =>
          ⟨recitalText r, some (pyStr (r.getAttr "eId"))⟩))

/-- A chapter record (lines 414-441). -/
structure ChapterRec where
  eId : Option String
  chapter_num : Option String
  chapter_heading : Option String
deriving DecidableEq

/-- `get_chapters`: every `.//akn:chapter` of the document root (not the
body); `num.text` when a direct `akn:num` child exists, the stripped full
text of a direct `akn:heading` child when one exists, `None` otherwise. -/
def getChapters (root : Elem) : List ChapterRec :=
  (root.findallDesc "akn:chapter").map fun ch =>
    ⟨ch.getAttr "eId",
     match ch.findChild "akn:num" with
     | some n => n.text
     | none => none,
     match ch.findChild "akn:heading" with
     | some h => some (strip h.allText)
     | none => none⟩

/-- An article record (lines 443-494). -/
structure ArticleRec where
  eId : Option String
  article_num : Option String
  article_title : Option String
  article_text : List (String × String)
deriving DecidableEq

/-- The title element (lines 471-474): a direct `akn:heading` child when
present, else the second direct `akn:num` child when more than one exists. -/
def articleTitleElem (art : Elem) : Option Elem :=
  match art.findChild "akn:heading" with
  | some h => some h
  | none =>
    if (art.childrenTagged "akn:num").length > 1
    then (art.childrenTagged "akn:num")[1]?
    else none

/-- `article_title_text` (line 476): the title element's direct text. -/
def articleTitle (art : Elem) : Option String :=
  (articleTitleElem art).bind Elem.text

/-- The per-article record built by the `get_articles` loop; `chain` is the
article's ancestor chain, threaded into `get_text_by_eId`. -/
def articleRecord (art : Elem) (chain : List Elem) : ArticleRec :=
  ⟨art.getAttr "eId",
   (art.findChild "akn:num").bind Elem.text,
   articleTitle art,
   getTextByEId chain art⟩

/-- The article records of a (note-stripped) body: one per `.//akn:article`
in document order.  The body is treated as the context root, so ancestor
chains stop at the body. -/
def articlesOf (body : Elem) : List ArticleRec :=
  ((body.descWithChain []).filter fun pc => pc.1.tag == "akn:article").map
    fun pc => articleRecord pc.1 pc.2

/-! ### Session state (root / body attributes of the parser object)

`get_root` sets `self.root`; `get_body` sets `self.body`.  Reading
`self.body` before `get_body` ran raises `AttributeError`, and so does
`remove_node(None, ...)` when `get_body` found nothing; `body` is hence
`none` (attribute never set) or `some b?` (set to the found body or to
Python `None`). -/

structure PState where
  root : Elem
  body : Option (Option Elem)

/-- `get_body` (lines 399-412): find `.//akn:body`, falling back to the
un-namespaced `.//body`, and store the result. -/
def getBodySt (s : PState) : PState :=
  { s with body := some (match s.root.findDesc "akn:body" with
                         | some b => some b
                         | none => s.root.findDesc "body") }

/-- `get_articles` (lines 443-494): fails unless a body was located;
strips `.//akn:authorialNote` from the stored body (an in-place mutation,
modelled by storing the stripped body back) and builds the records. -/
def getArticlesSt (s : PState) : Except String (List ArticleRec × PState) :=
  match s.body with
  | none => .error "AttributeError"
  | some none => .error "AttributeError"
  | some (some b) =>
    let b' := b.removeNode "akn:authorialNote"
    .ok (articlesOf b', { s with body := some (some b') })

/-- `get_chapters` (lines 414-441) reads only `self.root`. -/
def getChaptersSt (s : PState) : Except String (List ChapterRec) :=
  .ok (getChapters s.root)

/-! ### FRBR work metadata (_get_frbr_work, lines 113-140) -/

structure FrbrWorkRec where
  FRBRthis : Option String
  FRBRuri : Option String
  FRBRalias : Option String
  FRBRdate : Option String
  FRBRauthor : Option String
  FRBRcountry : Option String
  FRBRnumber : Option String
deriving DecidableEq

/-- `_get_frbr_work`: `None` when `akn:FRBRWork` is absent; otherwise each
field is `find(child).get(attr)`, evaluated in source order — Python's
`.get` on a missing child (`None`) raises `AttributeError`, while a
missing attribute on a present child yields `None`. -/
def getFrbrWork (identification : Elem) : Except String (Option FrbrWorkRec) :=
  match identification.findChild "akn:FRBRWork" with
  | none => .ok none
  | some w =>
    match w.findChild "akn:FRBRthis" with
    | none => .error "AttributeError"
    | some t =>
      match w.findChild "akn:FRBRuri" with
      | none => .error "AttributeError"
      | some u =>
        match w.findChild "akn:FRBRalias" with
        | none => .error "AttributeError"
        | some al =>
          match w.findChild "akn:FRBRdate" with
          | none => .error "AttributeError"
          | some d =>
            match w.findChild "akn:FRBRauthor" with
            | none => .error "AttributeError"
            | some au =>
              match w.findChild "akn:FRBRcountry" with
              | none => .error "AttributeError"
              | some co =>
                match w.findChild "akn:FRBRnumber" with
                | none => .error "AttributeError"
                | some nu =>
                  .ok (some ⟨t.getAttr "value", u.getAttr "value",
                             al.getAttr "value", d.getAttr "date",
                             au.getAttr "href", co.getAttr "value",
                             nu.getAttr "value"⟩)

/-! ### Spec-side models

Each definition below follows the wording of a spec claim (not the source)
and is compared against the source-derived definition by a theorem. -/

mutual

/-- Claim C1 wording: "for each paragraph element found anywhere beneath
the subtree", in document order, paired with its ancestor chain. -/
def Elem.specParagraphs : Elem → List Elem → List (Elem × List Elem)
  | .mk t a tx cs tl, anc => specParagraphsList cs (Elem.mk t a tx cs tl :: anc)

def specParagraphsList : List Elem → List Elem → List (Elem × List Elem)
  | [], _ => []
  | c :: rest, anc =>
    (if c.tag = "akn:p" then [(c, anc)] else []) ++
      c.specParagraphs anc ++ specParagraphsList rest anc

end

/-- Claim C1 wording: "the identifier of the nearest ancestor-or-self
element carrying a non-empty eId attribute". -/
def nearestAncestorOrSelfEId (p : Elem) (chain : List Elem) : Option String :=
  ((p :: chain).find? fun a => truthy (a.getAttr "eId")).bind fun a => a.getAttr "eId"

/-- Claim C1 wording: one pair per paragraph, in document order, with the
nearest identified ancestor-or-self and the trimmed descendant text;
unidentifiable paragraphs omitted, entries never merged. -/
def specGroupByEId (anc : List Elem) (node : Elem) : List (String × String) :=
  (node.specParagraphs anc).filterMap fun pc =>
    (nearestAncestorOrSelfEId pc.1 pc.2).map fun i => (i, strip pc.1.allText)

/-- Modelled from the claim's words (C2): on removal, the tail goes to the
preceding sibling's tail when one exists, else to the parent's text.
`accRev` holds the already-kept children, nearest (preceding) first. -/
def claimStripChildren (tag : String) : Option String → List Elem → List Elem →
    Option String × List Elem
  | tx, accRev, [] => (tx, accRev.reverse)
  | tx, accRev, c :: rest =>
    if c.tag = tag then
      if truthy c.tail then
        match accRev with
        | prev :: accRest =>
          claimStripChildren tag tx
            (prev.withTail (pyAppend prev.tail (c.tail.getD "")) :: accRest) rest
        | [] => claimStripChildren tag (pyAppend tx (c.tail.getD "")) [] rest
      else claimStripChildren tag tx accRev rest
    else claimStripChildren tag tx (c :: accRev) rest

mutual

/-- Modelled from the claim's words (C2): `remove_node` with the claimed
preceding-sibling tail rule. -/
def Elem.removeNodeClaim (tag : String) : Elem → Elem
  | .mk t a tx cs tl =>
    let cs0 := removeNodeClaimList tag cs
    let p := claimStripChildren tag tx [] cs0
    .mk t a p.1 p.2 tl

def removeNodeClaimList (tag : String) : List Elem → List Elem
  | [] => []
  | c :: rest => c.removeNodeClaim tag :: removeNodeClaimList tag rest

end

mutual

/-- Whether no element carrying the tag occurs anywhere in the subtree
(the root's own tag is not considered, matching `.//tag`). -/
def Elem.freeOf (tag : String) : Elem → Bool
  | .mk _ _ _ cs _ => freeOfList tag cs

def freeOfList (tag : String) : List Elem → Bool
  | [] => true
  | c :: rest => (c.tag != tag) && c.freeOf tag && freeOfList tag rest

end

/-- Modelled from the claim's words (C5): the per-recital text built from
the full descendant text (plain concatenation) of each paragraph. -/
def recitalTextClaim (r : Elem) : String :=
  collapseWs (String.intercalate " "
    ((r.childrenTagged "akn:p").map fun p => strip p.allText))

/-- Modelled from the claim's words (C5): the recitals extractor with the
claimed per-recital text rule; the rest follows the code. -/
def getPreambleRecitalsClaim (root : Elem) : Except String (Option (List RecEntry)) :=
  match findPath2 root "akn:preamble" "akn:recitals" with
  | none => .ok none
  | some sec =>
    match sec.findChild "akn:intro" with
    | none => .error "AttributeError"
    | some intro =>
      let introEntry : RecEntry := ⟨introText intro, intro.getAttr "eId"⟩
      let sec' := sec.removeNode "akn:authorialNote"
      .ok (some (introEntry ::
        (sec'.childrenTagged "akn:recital").map fun r =>
          ⟨recitalTextClaim r, some (pyStr (r.getAttr "eId"))⟩))

/-- Claim C5 wording for the intro entry: space-joined direct text of the
intro's paragraph children (truthy texts only, each trimmed). -/
def introTextSpec (intro : Elem) : String :=
  String.intercalate " "
    ((intro.children.filter fun c => c.tag == "akn:p").filterMap fun p =>
      if truthy p.text then some (strip (p.text.getD "")) else none)

/-- Claim C6 wording: identifier, number (direct text of the number child,
null if absent) and heading (full descendant text, trimmed, null if
absent), each null independently. -/
def chapterRecSpec (ch : Elem) : ChapterRec :=
  { eId := ch.getAttr "eId"
    chapter_num := (ch.findChild "akn:num").bind Elem.text
    chapter_heading := (ch.findChild "akn:heading").map fun h => strip h.allText }

/-- Claim C8 wording: the heading child's direct text when a heading
exists, else the second number child's direct text when it exists, else
null. -/
def articleTitleSpec (art : Elem) : Option String :=
  match art.findChild "akn:heading" with
  | some h => h.text
  | none =>
    match (art.childrenTagged "akn:num")[1]? with
    | some n2 => n2.text
    | none => none

/-- The required child elements of `FRBRWork` (lines 133-139). -/
def frbrWorkChildTags : List String :=
  ["akn:FRBRthis", "akn:FRBRuri", "akn:FRBRalias", "akn:FRBRdate",
   "akn:FRBRauthor", "akn:FRBRcountry", "akn:FRBRnumber"]

/-! ### Concrete documents for counterexamples and witnesses -/

/-- `<p><note/>T<a/></p>`: the removed note has no preceding sibling but a
following one. -/
def docTailC2 : Elem :=
  .mk "p" [] none
    [.mk "note" [] none [] (some "T"), .mk "a" [] none [] none] none

/-- `<p>foo <note>X</note> bar</p>` of the spec's own example. -/
def docFooBar : Elem :=
  .mk "p" [] (some "foo ") [.mk "note" [] (some "X") [] (some " bar")] none

/-- An identification block whose `FRBRWork` has all seven child elements,
with every attribute present except `value` on `FRBRthis`. -/
def docIdentC4 : Elem :=
  .mk "akn:identification" [] none
    [.mk "akn:FRBRWork" [] none
      [.mk "akn:FRBRthis" [] none [] none,
       .mk "akn:FRBRuri" [("value", "u")] none [] none,
       .mk "akn:FRBRalias" [("value", "a")] none [] none,
       .mk "akn:FRBRdate" [("date", "d")] none [] none,
       .mk "akn:FRBRauthor" [("href", "h")] none [] none,
       .mk "akn:FRBRcountry" [("value", "c")] none [] none,
       .mk "akn:FRBRnumber" [("value", "n")] none [] none] none] none

/-- An identification block whose `FRBRWork` lacks the `FRBRuri` child. -/
def docIdentC4Missing : Elem :=
  .mk "akn:identification" [] none
    [.mk "akn:FRBRWork" [] none
      [.mk "akn:FRBRthis" [("value", "t")] none [] none] none] none

/-- A document whose single recital paragraph is `<p>foo<b>bar</b></p>`:
adjacent descendant text chunks with no separating whitespace. -/
def docRecC5 : Elem :=
  .mk "root" [] none
    [.mk "akn:preamble" [] none
      [.mk "akn:recitals" [] none
        [.mk "akn:intro" [("eId", "rcs_1__intro")] none
          [.mk "akn:p" [] (some "Whereas:") [] none] none,
         .mk "akn:recital" [("eId", "rec_1")] none
          [.mk "akn:p" [] (some "foo")
            [.mk "akn:b" [] (some "bar") [] none] none] none] none] none] none

/-- A document with a recitals section that has no intro child. -/
def docRecC10 : Elem :=
  .mk "root" [] none
    [.mk "akn:preamble" [] none
      [.mk "akn:recitals" [] none
        [.mk "akn:recital" [("eId", "rec_1")] none [] none] none] none] none

/-- The recitals section of `docRecC10`. -/
def secRecC10 : Elem :=
  .mk "akn:recitals" [] none
    [.mk "akn:recital" [("eId", "rec_1")] none [] none] none

/-- A document containing one chapter but no body element at all. -/
def docChapC9 : Elem :=
  .mk "akomaNtoso" [] none
    [.mk "akn:chapter" [("eId", "chp_1")] none
      [.mk "akn:num" [] (some "I") [] none] none] none

/-- An empty document: no preface, no preamble. -/
def docEmpty : Elem := .mk "akomaNtoso" [] none [] none

/-! ## Theorems -/

/-- Structural induction for `Elem` through the nested `List`. -/
theorem Elem.inductionOn {P : Elem → Prop}
    (h : ∀ t a tx cs tl, (∀ c ∈ cs, P c) → P (Elem.mk t a tx cs tl)) :
    ∀ e, P e
  | .mk t a tx cs tl => h t a tx cs tl (fun c hc => Elem.inductionOn h c)
termination_by e => sizeOf e
decreasing_by
  have := List.sizeOf_lt_of_mem hc
  simp
  omega

/-- `filterMap` only depends on the function's values on the list. -/
theorem filterMap_congr_mem {α β : Type} {f g : α → Option β} :
    ∀ {l : List α}, (∀ a ∈ l, f a = g a) → l.filterMap f = l.filterMap g
  | [], _ => rfl
  | a :: l, h => by
    simp only [List.filterMap_cons, h a (by simp)]
    rw [filterMap_congr_mem fun x hx => h x (by simp [hx])]

/-- Claim C7: when the preface, citations or recitals element is absent,
the corresponding extractor returns `None`, not an empty list. -/
theorem absent_sections_yield_none (root : Elem) :
    (root.findDesc "akn:preface" = none → getPreface root = none) ∧
    (findPath2 root "akn:preamble" "akn:citations" = none →
      getPreambleCitations root = none) ∧
    (findPath2 root "akn:preamble" "akn:recitals" = none →
      getPreambleRecitals root = .ok none) := by
  refine ⟨fun h => ?_, fun h => ?_, fun h => ?_⟩
  · simp [getPreface, h]
  · simp [getPreambleCitations, h]
  · simp [getPreambleRecitals, h]

theorem absent_sections_yield_none_witness :
    getPreface docEmpty = none ∧ getPreambleCitations docEmpty = none ∧
    getPreambleRecitals docEmpty = .ok none :=
  ⟨(absent_sections_yield_none docEmpty).1 rfl,
   (absent_sections_yield_none docEmpty).2.1 rfl,
   (absent_sections_yield_none docEmpty).2.2 rfl⟩

/-- Claim C10: a recitals section without an intro child makes the
recitals extractor fail (attribute lookup on a missing element) instead of
returning null or skipping the intro entry. -/
theorem recitals_without_intro_errors (root sec : Elem)
    (h1 : findPath2 root "akn:preamble" "akn:recitals" = some sec)
    (h2 : sec.findChild "akn:intro" = none) :
    getPreambleRecitals root = .error "AttributeError" := by
  simp [getPreambleRecitals, h1, h2]

theorem recitals_without_intro_errors_witness :
    getPreambleRecitals docRecC10 = .error "AttributeError" :=
  recitals_without_intro_errors docRecC10 secRecC10 rfl rfl

/-- Claim C9 counterexample: chapter extraction succeeds on a loaded state
whose `body` attribute was never set by `get_body` — the claim's "chapter
extraction succeeds only after get_body" is false. -/
theorem chapters_succeed_without_body :
    (PState.mk docChapC9 none).body = none ∧
    getChaptersSt (PState.mk docChapC9 none) =
      .ok [⟨some "chp_1", some "I", none⟩] :=
  ⟨rfl, rfl⟩

/-- Claim C9 (amended): after load, article extraction succeeds exactly
when `get_body` ran and located a body, while chapter extraction reads
only the document root and succeeds regardless of the body state. -/
theorem articles_need_body_chapters_do_not (s : PState) :
    ((∃ v, getArticlesSt s = .ok v) ↔ ∃ b, s.body = some (some b)) ∧
    getChaptersSt s = .ok (getChapters s.root) := by
  obtain ⟨root, body⟩ := s
  refine ⟨?_, rfl⟩
  rcases body with _ | b
  · simp [getArticlesSt]
  · rcases b with _ | b
    · simp [getArticlesSt]
    · simp [getArticlesSt]

/-- Claim C6: chapter extraction covers every chapter element anywhere
under the document root and fills number and heading independently, `None`
for a missing child, never failing. -/
theorem chapters_cover_document (root : Elem) :
    getChapters root = (root.findallDesc "akn:chapter").map chapterRecSpec := by
  unfold getChapters
  refine List.map_congr_left fun ch _ => ?_
  unfold chapterRecSpec
  cases hn : ch.findChild "akn:num" <;> cases hh : ch.findChild "akn:heading" <;>
    simp [hn, hh]

/-- Claim C8: the article title is the heading child's direct text when a
heading exists, else the second number child's direct text when more than
one number child exists, else null. -/
theorem article_title_rule (art : Elem) (chain : List Elem) :
    (articleRecord art chain).article_title = articleTitleSpec art := by
  show articleTitle art = articleTitleSpec art
  unfold articleTitle articleTitleElem articleTitleSpec
  cases hh : art.findChild "akn:heading"
  · cases hn : (art.childrenTagged "akn:num")[1]?
    · have hlen : ¬ (art.childrenTagged "akn:num").length > 1 := by
        rw [List.getElem?_eq_none_iff] at hn
        omega
      simp [hlen, hn]
    · have hlen : (art.childrenTagged "akn:num").length > 1 := by
        obtain ⟨h, -⟩ := List.getElem?_eq_some_iff.mp hn
        omega
      simp [hlen, hn]
  · simp [hh]

/-- Claim C4 counterexample: `FRBRWork` present with all seven children,
but `FRBRthis` lacks its `value` attribute — the extractor silently maps
the field to null instead of failing. -/
theorem frbr_missing_attribute_yields_null :
    getFrbrWork docIdentC4 =
      .ok (some ⟨none, some "u", some "a", some "d", some "h", some "c",
                 some "n"⟩) := rfl

/-- Claim C4 (amended): with `FRBRWork` present, the extractor fails with
an `AttributeError` exactly when one of the seven expected child elements
is missing; attribute values of present children are read with `.get`,
mapping a missing attribute to null. -/
theorem frbr_work_error_iff_missing_child (ident w : Elem)
    (hw : ident.findChild "akn:FRBRWork" = some w) :
    getFrbrWork ident = .error "AttributeError" ↔
      ∃ tg ∈ frbrWorkChildTags, w.findChild tg = none := by
  unfold getFrbrWork
  rw [hw]
  cases h1 : w.findChild "akn:FRBRthis" <;>
  cases h2 : w.findChild "akn:FRBRuri" <;>
  cases h3 : w.findChild "akn:FRBRalias" <;>
  cases h4 : w.findChild "akn:FRBRdate" <;>
  cases h5 : w.findChild "akn:FRBRauthor" <;>
  cases h6 : w.findChild "akn:FRBRcountry" <;>
  cases h7 : w.findChild "akn:FRBRnumber" <;>
    simp [frbrWorkChildTags, h1, h2, h3, h4, h5, h6, h7]

theorem frbr_work_error_iff_missing_child_witness :
    getFrbrWork docIdentC4Missing = .error "AttributeError" :=
  (frbr_work_error_iff_missing_child docIdentC4Missing
    (.mk "akn:FRBRWork" [] none
      [.mk "akn:FRBRthis" [("value", "t")] none [] none] none) rfl).mpr
    ⟨"akn:FRBRuri", by decide, rfl⟩

/-- The source's intro-text expression agrees with the claim's wording
(space-joined trimmed direct texts, skipping falsy-text paragraphs). -/
theorem introText_eq_spec (intro : Elem) : introText intro = introTextSpec intro := by
  unfold introText introTextSpec Elem.childrenTagged
  congr 1
  refine filterMap_congr_mem fun p _ => ?_
  cases hp : p.text with
  | none => simp [truthy]
  | some s =>
    by_cases hs : s = "" <;> simp [truthy, hs]

/-- Claim C5 counterexample: for the recital paragraph
`<p>foo<b>bar</b></p>` the extractor emits `"foo bar"` (descendant text
chunks joined by single spaces), not the plain concatenation `"foobar"`
the claim's "full descendant text" prescribes. -/
theorem recital_text_not_plain_concatenation :
    getPreambleRecitals docRecC5 =
      .ok (some [⟨"Whereas:", some "rcs_1__intro"⟩, ⟨"foo bar", some "rec_1"⟩]) ∧
    getPreambleRecitalsClaim docRecC5 =
      .ok (some [⟨"Whereas:", some "rcs_1__intro"⟩, ⟨"foobar", some "rec_1"⟩]) ∧
    ("foo bar" : String) ≠ "foobar" :=
  ⟨rfl, rfl, by decide⟩

/-- Claim C5 (amended): with the recitals section and its intro present,
the extractor emits the intro entry first — built from the space-joined
direct text of the intro's paragraph children, read before any stripping —
then strips `akn:authorialNote` elements from the section, and then emits
one entry per recital child of the stripped section whose text joins each
paragraph's descendant text chunks with single spaces (trimmed per
paragraph), paragraphs joined by a single space, whitespace runs collapsed
to one space. -/
theorem recitals_pipeline (root sec intro : Elem)
    (h1 : findPath2 root "akn:preamble" "akn:recitals" = some sec)
    (h2 : sec.findChild "akn:intro" = some intro) :
    getPreambleRecitals root =
      .ok (some (⟨introTextSpec intro, intro.getAttr "eId"⟩ ::
        ((sec.removeNode "akn:authorialNote").childrenTagged "akn:recital").map
          fun r => ⟨recitalText r, some (pyStr (r.getAttr "eId"))⟩)) := by
  simp [getPreambleRecitals, h1, h2, introText_eq_spec]

theorem recitals_pipeline_witness :
    getPreambleRecitals docRecC5 =
      .ok (some [⟨"Whereas:", some "rcs_1__intro"⟩, ⟨"foo bar", some "rec_1"⟩]) :=
  (recitals_pipeline docRecC5
    (.mk "akn:recitals" [] none
      [.mk "akn:intro" [("eId", "rcs_1__intro")] none
        [.mk "akn:p" [] (some "Whereas:") [] none] none,
       .mk "akn:recital" [("eId", "rec_1")] none
        [.mk "akn:p" [] (some "foo")
          [.mk "akn:b" [] (some "bar") [] none] none] none] none)
    (.mk "akn:intro" [("eId", "rcs_1__intro")] none
      [.mk "akn:p" [] (some "Whereas:") [] none] none) rfl rfl).trans rfl

/-! ### remove_node lemmas (claims C2 and C3) -/

theorem removeNodeList_eq_map (tag : String) :
    ∀ cs : List Elem, removeNodeList tag cs = cs.map (Elem.removeNode tag)
  | [] => rfl
  | c :: rest => by
    rw [removeNodeList, List.map_cons, removeNodeList_eq_map tag rest]

/-- The defining equation of `removeNode` with the children recursion
expressed as `List.map`. -/
theorem removeNode_mk (tag pt : String) (pa : List (String × String))
    (tx : Option String) (cs : List Elem) (tl : Option String) :
    Elem.removeNode tag (.mk pt pa tx cs tl) =
      .mk pt pa
        (stripLoop tag (cs.map (Elem.removeNode tag)).length tx
          (cs.map (Elem.removeNode tag))).1
        (stripLoop tag (cs.map (Elem.removeNode tag)).length tx
          (cs.map (Elem.removeNode tag))).2 tl := by
  rw [Elem.removeNode, removeNodeList_eq_map]

theorem Elem.removeNode_tag (tag : String) (e : Elem) :
    (e.removeNode tag).tag = e.tag := by
  cases e
  rw [Elem.removeNode]
  rfl

theorem Elem.removeNode_tail (tag : String) (e : Elem) :
    (e.removeNode tag).tail = e.tail := by
  cases e
  rw [Elem.removeNode]
  rfl

theorem removeFirstTagged_eq_none_iff (tag : String) :
    ∀ cs : List Elem, removeFirstTagged tag cs = none ↔ ∀ c ∈ cs, c.tag ≠ tag
  | [] => by simp [removeFirstTagged]
  | c :: rest => by
    rw [removeFirstTagged]
    by_cases h : c.tag = tag
    · simp [h]
    · simp [h, Option.map_eq_none', removeFirstTagged_eq_none_iff tag rest]

theorem removeFirstTagged_some_length (tag : String) :
    ∀ cs : List Elem, ∀ t cs', removeFirstTagged tag cs = some (t, cs') →
      cs'.length + 1 = cs.length
  | [] => by simp [removeFirstTagged]
  | c :: rest => by
    intro t cs'
    rw [removeFirstTagged]
    by_cases h : c.tag = tag
    · simp only [h, if_pos rfl, Option.some.injEq, Prod.mk.injEq]
      rintro ⟨-, rfl⟩
      rfl
    · rw [if_neg h]
      cases hr : removeFirstTagged tag rest with
      | none => simp
      | some p =>
        simp only [Option.map_some', Option.some.injEq, Prod.mk.injEq]
        rintro ⟨rfl, rfl⟩
        have := removeFirstTagged_some_length tag rest p.1 p.2 (by rw [hr])
        simp only [List.length_cons]
        omega

theorem removeFirstTagged_some_subset (tag : String) :
    ∀ cs : List Elem, ∀ t cs', removeFirstTagged tag cs = some (t, cs') →
      ∀ c ∈ cs', c ∈ cs
  | [] => by simp [removeFirstTagged]
  | c :: rest => by
    intro t cs'
    rw [removeFirstTagged]
    by_cases h : c.tag = tag
    · simp only [h, if_pos rfl, Option.some.injEq, Prod.mk.injEq]
      rintro ⟨-, rfl⟩
      intro x hx
      exact List.mem_cons_of_mem c hx
    · rw [if_neg h]
      cases hr : removeFirstTagged tag rest with
      | none => simp
      | some p =>
        simp only [Option.map_some', Option.some.injEq, Prod.mk.injEq]
        rintro ⟨rfl, rfl⟩
        intro x hx
        rcases List.mem_cons.mp hx with rfl | hx'
        · exact List.mem_cons_self x rest
        · exact List.mem_cons_of_mem c
            (removeFirstTagged_some_subset tag rest p.1 p.2 (by rw [hr]) x hx')

theorem setTailLast_map_tag (t : String) :
    ∀ cs : List Elem, (setTailLast t cs).map Elem.tag = cs.map Elem.tag
  | [] => rfl
  | [c] => by
    cases c
    rfl
  | c :: c' :: rest => by
    rw [setTailLast, List.map_cons, List.map_cons, setTailLast_map_tag t (c' :: rest)]

theorem setTailLast_pres {Q : Elem → Prop} (hQ : ∀ c t', Q c → Q (c.withTail t'))
    (t : String) :
    ∀ cs : List Elem, (∀ c ∈ cs, Q c) → ∀ c' ∈ setTailLast t cs, Q c'
  | [] => by simp [setTailLast]
  | [c] => by
    intro h c' hc'
    rw [setTailLast] at hc'
    rcases List.mem_singleton.mp hc' with rfl
    exact hQ c _ (h c (List.mem_singleton.mpr rfl))
  | c :: c' :: rest => by
    intro h x hx
    rw [setTailLast] at hx
    rcases List.mem_cons.mp hx with rfl | hx'
    · exact h x (List.mem_cons_self x _)
    · exact setTailLast_pres hQ t (c' :: rest)
        (fun y hy => h y (List.mem_cons_of_mem c hy)) x hx'

theorem applyTailRule_map_tag (t tx : Option String) (cs : List Elem) :
    ((applyTailRule t tx cs).2).map Elem.tag = cs.map Elem.tag := by
  unfold applyTailRule
  by_cases h : truthy t
  · rw [if_pos h]
    cases cs with
    | nil => rfl
    | cons c rest => exact setTailLast_map_tag _ _
  · rw [if_neg h]

theorem applyTailRule_length (t tx : Option String) (cs : List Elem) :
    ((applyTailRule t tx cs).2).length = cs.length := by
  have := congrArg List.length (applyTailRule_map_tag t tx cs)
  simpa using this

theorem applyTailRule_pres {Q : Elem → Prop} (hQ : ∀ c t', Q c → Q (c.withTail t'))
    (t tx : Option String) (cs : List Elem) (h : ∀ c ∈ cs, Q c) :
    ∀ c' ∈ (applyTailRule t tx cs).2, Q c' := by
  unfold applyTailRule
  by_cases ht : truthy t
  · rw [if_pos ht]
    cases cs with
    | nil => simp
    | cons c rest => exact setTailLast_pres hQ _ _ h
  · rw [if_neg ht]
    exact h

theorem stripLoop_pres {Q : Elem → Prop} (hQ : ∀ c t', Q c → Q (c.withTail t'))
    (tag : String) :
    ∀ fuel : Nat, ∀ tx : Option String, ∀ cs : List Elem,
      (∀ c ∈ cs, Q c) → ∀ c' ∈ (stripLoop tag fuel tx cs).2, Q c'
  | 0, tx, cs => fun h => by simpa [stripLoop] using h
  | fuel + 1, tx, cs => fun h => by
    rw [stripLoop]
    cases hr : removeFirstTagged tag cs with
    | none => simpa using h
    | some p =>
      have hsub := removeFirstTagged_some_subset tag cs p.1 p.2 (by rw [hr])
      exact stripLoop_pres hQ tag fuel _ _
        (applyTailRule_pres hQ p.1 tx p.2 (fun c hc => h c (hsub c hc)))

theorem stripLoop_none (tag : String) (fuel : Nat) (tx : Option String)
    (cs : List Elem) (h : removeFirstTagged tag cs = none) :
    stripLoop tag fuel tx cs = (tx, cs) := by
  cases fuel with
  | zero => rfl
  | succ n => rw [stripLoop, h]

theorem stripLoop_no_match (tag : String) :
    ∀ fuel : Nat, ∀ tx : Option String, ∀ cs : List Elem, cs.length ≤ fuel →
      ∀ c' ∈ (stripLoop tag fuel tx cs).2, c'.tag ≠ tag
  | 0, tx, cs => fun hle => by
    have h0 : cs = [] := List.length_eq_zero.mp (Nat.le_zero.mp hle)
    subst h0
    simp [stripLoop]
  | fuel + 1, tx, cs => fun hle => by
    rw [stripLoop]
    cases hr : removeFirstTagged tag cs with
    | none => exact (removeFirstTagged_eq_none_iff tag cs).mp hr
    | some p =>
      have hlen := removeFirstTagged_some_length tag cs p.1 p.2 (by rw [hr])
      refine stripLoop_no_match tag fuel _ _ ?_
      rw [applyTailRule_length]
      omega

theorem freeOfList_iff (tag : String) :
    ∀ cs : List Elem,
      freeOfList tag cs = true ↔ ∀ c ∈ cs, c.tag ≠ tag ∧ c.freeOf tag = true
  | [] => by simp [freeOfList]
  | c :: rest => by
    rw [freeOfList]
    simp only [Bool.and_eq_true, bne_iff_ne, freeOfList_iff tag rest,
      List.mem_cons, forall_eq_or_imp]

theorem freeOf_withTail (tag : String) (c : Elem) (t' : Option String) :
    (c.withTail t').freeOf tag = c.freeOf tag := by
  cases c
  rfl

/-- After one pass of `remove_node`, no element carrying the tag remains
anywhere in the subtree. -/
theorem removeNode_freeOf (tag : String) (e : Elem) :
    (e.removeNode tag).freeOf tag = true := by
  refine Elem.inductionOn (P := fun e => (e.removeNode tag).freeOf tag = true)
    (fun t a tx cs tl ih => ?_) e
  show (Elem.removeNode tag (Elem.mk t a tx cs tl)).freeOf tag = true
  rw [removeNode_mk, Elem.freeOf, freeOfList_iff]
  intro c' hc'
  refine ⟨stripLoop_no_match tag _ tx _ le_rfl c' hc', ?_⟩
  refine stripLoop_pres (Q := fun c => c.freeOf tag = true)
    (fun c t' hq => by
      show (c.withTail t').freeOf tag = true
      rw [freeOf_withTail]
      exact hq) tag _ tx _ ?_ c' hc'
  intro c hc
  obtain ⟨c0, hc0, rfl⟩ := List.mem_map.mp hc
  exact ih c0 hc0

/-- `remove_node` does not change a subtree containing no matching
element. -/
theorem removeNode_of_freeOf (tag : String) (e : Elem)
    (h : e.freeOf tag = true) : e.removeNode tag = e := by
  induction e using Elem.inductionOn with
  | _ t a tx cs tl ih =>
    rw [Elem.freeOf, freeOfList_iff] at h
    rw [removeNode_mk]
    have hmap : cs.map (Elem.removeNode tag) = cs := by
      have h1 : cs.map (Elem.removeNode tag) = cs.map id :=
        List.map_congr_left fun c hc => ih c hc (h c hc).2
      rw [h1, List.map_id]
    rw [hmap]
    rw [stripLoop_none tag _ tx cs
      ((removeFirstTagged_eq_none_iff tag cs).mpr fun c hc => (h c hc).1)]

/-- Claim C3: annotation stripping is idempotent — re-running
`remove_node` on an already-stripped subtree changes nothing, for every
subtree and selector tag. -/
theorem removeNode_idempotent (tag : String) (e : Elem) :
    (e.removeNode tag).removeNode tag = e.removeNode tag :=
  removeNode_of_freeOf tag _ (removeNode_freeOf tag _)

theorem removeFirstTagged_append (tag : String) :
    ∀ pre : List Elem, (∀ c ∈ pre, c.tag ≠ tag) → ∀ m post, m.tag = tag →
      removeFirstTagged tag (pre ++ m :: post) = some (m.tail, pre ++ post)
  | [], _ => fun m post hm => by
    rw [List.nil_append, removeFirstTagged, if_pos hm, List.nil_append]
  | c :: pre', h => fun m post hm => by
    have hc : c.tag ≠ tag := h c (List.mem_cons_self c pre')
    rw [List.cons_append, removeFirstTagged, if_neg hc,
      removeFirstTagged_append tag pre'
        (fun x hx => h x (List.mem_cons_of_mem c hx)) m post hm]
    rfl

theorem tag_ne_of_map_tag_eq {tag : String} {l' l : List Elem}
    (h : l'.map Elem.tag = l.map Elem.tag) (hl : ∀ c ∈ l, c.tag ≠ tag) :
    ∀ c' ∈ l', c'.tag ≠ tag := by
  intro c' hc' heq
  have hmem : c'.tag ∈ l'.map Elem.tag := List.mem_map_of_mem Elem.tag hc'
  rw [h] at hmem
  obtain ⟨c, hc, hceq⟩ := List.mem_map.mp hmem
  exact hl c hc (hceq.trans heq)

/-- Claim C2 counterexample: removing `<note/>` from `<p><note/>T<a/></p>`
— the note has no preceding sibling, so the claim sends its tail `"T"` to
the parent's leading text, but the code appends it to the tail of the last
remaining child `<a/>`. -/
theorem tail_not_per_claim_rule :
    Elem.removeNode "note" docTailC2 =
      .mk "p" [] none [.mk "a" [] none [] (some "T")] none ∧
    Elem.removeNodeClaim "note" docTailC2 =
      .mk "p" [] (some "T") [.mk "a" [] none [] none] none ∧
    (Elem.mk "p" [] none [.mk "a" [] none [] (some "T")] none).text ≠
      (Elem.mk "p" [] (some "T") [.mk "a" [] none [] none] none).text :=
  ⟨rfl, rfl, by decide⟩

/-- Claim C2 (amended): when `remove_node` detaches a matching child
carrying truthy tail text, the tail is appended to the tail of the
parent's **last** remaining child when any children remain (the preceding
sibling only when the removed element was the last child), and to the
parent's leading text otherwise; in particular
`<p>foo <note>X</note> bar</p>` yields parent text `"foo  bar"`. -/
theorem removeNode_tail_to_last (tag pt : String) (pa : List (String × String))
    (tx tl : Option String) (pre post : List Elem) (m : Elem)
    (hm : m.tag = tag) (hpre : ∀ c ∈ pre, c.tag ≠ tag)
    (hpost : ∀ c ∈ post, c.tag ≠ tag) (ht : truthy m.tail = true) :
    Elem.removeNode tag (.mk pt pa tx (pre ++ m :: post) tl) =
      if (pre ++ post).isEmpty
      then .mk pt pa (pyAppend tx (m.tail.getD "")) [] tl
      else .mk pt pa tx
        (setTailLast (m.tail.getD "") ((pre ++ post).map (Elem.removeNode tag))) tl := by
  rw [removeNode_mk]
  have hmaps : (pre ++ m :: post).map (Elem.removeNode tag) =
      pre.map (Elem.removeNode tag) ++
        (m.removeNode tag) :: post.map (Elem.removeNode tag) := by
    simp
  rw [hmaps]
  have hpre' : ∀ c ∈ pre.map (Elem.removeNode tag), c.tag ≠ tag := by
    intro c hc
    obtain ⟨c0, hc0, rfl⟩ := List.mem_map.mp hc
    rw [Elem.removeNode_tag]
    exact hpre c0 hc0
  have hpost' : ∀ c ∈ post.map (Elem.removeNode tag), c.tag ≠ tag := by
    intro c hc
    obtain ⟨c0, hc0, rfl⟩ := List.mem_map.mp hc
    rw [Elem.removeNode_tag]
    exact hpost c0 hc0
  have hfirst := removeFirstTagged_append tag _ hpre' (m.removeNode tag)
    (post.map (Elem.removeNode tag)) (by rw [Elem.removeNode_tag]; exact hm)
  have hlen : (pre.map (Elem.removeNode tag) ++
      (m.removeNode tag) :: post.map (Elem.removeNode tag)).length =
      (pre.map (Elem.removeNode tag) ++ post.map (Elem.removeNode tag)).length + 1 := by
    simp
    omega
  rw [hlen]
  have htm : truthy (m.removeNode tag).tail = true := by
    rw [Elem.removeNode_tail]
    exact ht
  have hstep : stripLoop tag
      ((pre.map (Elem.removeNode tag) ++ post.map (Elem.removeNode tag)).length + 1) tx
      (pre.map (Elem.removeNode tag) ++
        (m.removeNode tag) :: post.map (Elem.removeNode tag)) =
      stripLoop tag
        (pre.map (Elem.removeNode tag) ++ post.map (Elem.removeNode tag)).length
        (applyTailRule (m.removeNode tag).tail tx
          (pre.map (Elem.removeNode tag) ++ post.map (Elem.removeNode tag))).1
        (applyTailRule (m.removeNode tag).tail tx
          (pre.map (Elem.removeNode tag) ++ post.map (Elem.removeNode tag))).2 := by
    rw [stripLoop, hfirst]
  rw [hstep]
  have happ : pre.map (Elem.removeNode tag) ++ post.map (Elem.removeNode tag) =
      (pre ++ post).map (Elem.removeNode tag) := by
    simp
  rw [happ]
  cases hc : (pre ++ post).map (Elem.removeNode tag) with
  | nil =>
    have hpp : (pre ++ post).isEmpty = true := by
      have := congrArg List.length hc
      simp at this
      simp [List.isEmpty_iff, this]
    have happly : applyTailRule (m.removeNode tag).tail tx ([] : List Elem) =
        (pyAppend tx ((m.removeNode tag).tail.getD ""), []) := by
      unfold applyTailRule
      rw [if_pos htm]
    rw [happly]
    rw [stripLoop_none tag _ _ [] rfl]
    rw [Elem.removeNode_tail]
    simp [hpp]
  | cons x xs =>
    have hpp : (pre ++ post).isEmpty = false := by
      cases hpq : pre ++ post with
      | nil => rw [hpq] at hc; simp at hc
      | cons y ys => simp
    have happly : applyTailRule (m.removeNode tag).tail tx (x :: xs) =
        (tx, setTailLast ((m.removeNode tag).tail.getD "") (x :: xs)) := by
      unfold applyTailRule
      rw [if_pos htm]
    rw [happly]
    have hnomatch : removeFirstTagged tag
        (setTailLast ((m.removeNode tag).tail.getD "") (x :: xs)) = none := by
      refine (removeFirstTagged_eq_none_iff tag _).mpr ?_
      refine tag_ne_of_map_tag_eq (setTailLast_map_tag _ _) ?_
      rw [← hc]
      intro c hcm
      obtain ⟨c0, hc0, rfl⟩ := List.mem_map.mp hcm
      rw [Elem.removeNode_tag]
      rcases List.mem_append.mp hc0 with h0 | h0
      · exact hpre c0 h0
      · exact hpost c0 h0
    rw [stripLoop_none tag _ _ _ hnomatch]
    rw [Elem.removeNode_tail]
    rw [if_neg (by simp [hpp])]

theorem removeNode_tail_to_last_witness :
    Elem.removeNode "note" docFooBar = .mk "p" [] (some "foo  bar") [] none :=
  (removeNode_tail_to_last "note" "p" [] (some "foo ") none [] []
    (.mk "note" [] (some "X") [] (some " bar")) rfl
    (by intro c hc; cases hc) (by intro c hc; cases hc) (by decide)).trans rfl

/-! ### get_text_by_eId lemmas (claim C1) -/

mutual

theorem descWithChain_filter_eq (e : Elem) (anc : List Elem) :
    (e.descWithChain anc).filter (fun pc => pc.1.tag == "akn:p") =
      e.specParagraphs anc := by
  cases e with
  | mk t a tx cs tl =>
    rw [Elem.descWithChain, Elem.specParagraphs]
    exact descWithChainList_filter_eq cs (Elem.mk t a tx cs tl :: anc)

theorem descWithChainList_filter_eq (cs : List Elem) (anc : List Elem) :
    (descWithChainList cs anc).filter (fun pc => pc.1.tag == "akn:p") =
      specParagraphsList cs anc := by
  cases cs with
  | nil => rfl
  | cons c rest =>
    rw [descWithChainList, specParagraphsList, List.filter_append,
      List.filter_cons, descWithChain_filter_eq c anc,
      descWithChainList_filter_eq rest anc]
    by_cases h : c.tag = "akn:p"
    · simp [h]
    · simp [h]

end

theorem findEIdUp_eq_find :
    ∀ l : List Elem, findEIdUp l =
      (l.find? fun a => truthy (a.getAttr "eId")).bind fun a => a.getAttr "eId"
  | [] => rfl
  | c :: rest => by
    rw [findEIdUp]
    by_cases h : truthy (c.getAttr "eId")
    · simp [List.find?_cons_of_pos, h]
    · rw [if_neg h, List.find?_cons_of_neg _ (by simp [h]),
        findEIdUp_eq_find rest]

/-- Claim C1: `get_text_by_eId` emits, for each paragraph found anywhere
beneath the subtree, in document order, one unmerged pair of the nearest
ancestor-or-self element's non-empty `eId` and the paragraph's trimmed
full descendant text, omitting paragraphs that have no identified
ancestor-or-self up to the document root. -/
theorem getTextByEId_spec (anc : List Elem) (node : Elem) :
    getTextByEId anc node = specGroupByEId anc node := by
  unfold getTextByEId specGroupByEId
  rw [descWithChain_filter_eq]
  refine filterMap_congr_mem fun pc _ => ?_
  rw [nearestAncestorOrSelfEId, ← findEIdUp_eq_find]
  cases findEIdUp (pc.1 :: pc.2) <;> rfl

theorem articles_need_body_chapters_do_not_witness :
    getChaptersSt (PState.mk docChapC9 none) = .ok (getChapters docChapC9) :=
  (articles_need_body_chapters_do_not (PState.mk docChapC9 none)).2
